import Mathlib

/-!
Shallow embedding of the EncryptoVault repository.

* `EncryptoVault` — the Solidity contract (the AccessControlLedger of the
  spec): documents, per-document collaborator set/list, and the delegated
  FHE access-control list for the confidential secret handles.
* `Codec` — the frontend symmetric codec (`crypto.ts`): hex encoding,
  payload splitting and the AES-GCM wrapper, with the AES-GCM primitive and
  the SHA-256 hash kept abstract (they are platform WebCrypto calls, not
  repository code).
* `Frontend` — the error handling of `VaultApp.tsx`'s `updateBody`.

Addresses and FHE handles are modelled as `Nat`; address `0` is the null
address (`address(0)`), and a document exists in the contract iff its
stored owner is nonzero, exactly as the Solidity code tests.
-/

namespace EncryptoVault

/-- The Solidity `Document` struct. `encryptedSecret` is an opaque FHE
handle, modelled as a `Nat` identifier. -/
structure Document where
  name : String
  encryptedBody : String
  encryptedSecret : Nat
  owner : Nat
  updatedAt : Nat
deriving DecidableEq

/-- The default value of a Solidity storage slot of type `Document`:
what `_documents[i]` holds before any assignment. -/
def emptyDocument : Document :=
  { name := "", encryptedBody := "", encryptedSecret := 0, owner := 0, updatedAt := 0 }

/-- The contract's custom errors (`error ...` declarations). -/
inductive VaultError where
  | documentNotFound (documentId : Nat)
  | notDocumentOwner (caller : Nat)
  | unauthorized (caller : Nat)
  | invalidAddress
  | emptyName
deriving DecidableEq

/-- Contract storage plus the external FHE ACL state.

`documentCount`, `documents`, `collaborators`, `collaboratorList` mirror the
four storage declarations of the contract.  `nextHandle` models the minting
of fresh FHE handles by `FHE.fromExternal`; `fheAcl h a` holds when
`FHE.allow(h, a)` has been called (the ConfidentialValueStore's per-identity
authorization, consulted by `FHE.isSenderAllowed`); `fheAclThis h` records
`FHE.allowThis(h)` (authorization of the contract itself). -/
structure VaultState where
  documentCount : Nat
  documents : Nat → Document
  collaborators : Nat → Nat → Bool
  collaboratorList : Nat → List Nat
  nextHandle : Nat
  fheAcl : Nat → Nat → Bool
  fheAclThis : Nat → Bool

/-- Freshly deployed contract: all storage at default values. -/
def initialState : VaultState :=
  { documentCount := 0
    documents := fun _ => emptyDocument
    collaborators := fun _ _ => false
    collaboratorList := fun _ => []
    nextHandle := 1
    fheAcl := fun _ _ => false
    fheAclThis := fun _ => false }

/-- `createDocument(name, encryptedSecret, inputProof)` called by `sender`
at block timestamp `now`.  `FHE.fromExternal` is modelled as minting the
fresh handle `s.nextHandle`.  Returns the new document id. -/
def createDocument (name : String) (sender now : Nat) (s : VaultState) :
    Except VaultError (Nat × VaultState) :=
  if name = "" then
    .error .emptyName
  else
    let secret := s.nextHandle
    let documentId := s.documentCount + 1
    .ok (documentId,
      { s with
        documentCount := documentId
        nextHandle := s.nextHandle + 1
        documents := fun i =>
          if i = documentId then
            { name := name, encryptedBody := "", encryptedSecret := secret,
              owner := sender, updatedAt := now }
          else s.documents i
        collaborators := fun i a =>
          if i = documentId ∧ a = sender then true else s.collaborators i a
        collaboratorList := fun i =>
          if i = documentId then s.collaboratorList i ++ [sender]
          else s.collaboratorList i
        fheAcl := fun h a =>
          if h = secret ∧ a = sender then true else s.fheAcl h a
        fheAclThis := fun h => if h = secret then true else s.fheAclThis h })

/-- `grantAccess(documentId, grantee)` called by `sender`. -/
def grantAccess (documentId grantee sender : Nat) (s : VaultState) :
    Except VaultError VaultState :=
  let doc := s.documents documentId
  if doc.owner = 0 then
    .error (.documentNotFound documentId)
  else if doc.owner ≠ sender then
    .error (.notDocumentOwner sender)
  else if grantee = 0 then
    .error .invalidAddress
  else
    let s1 :=
      if s.collaborators documentId grantee then s
      else
        { s with
          collaborators := fun i a =>
            if i = documentId ∧ a = grantee then true else s.collaborators i a
          collaboratorList := fun i =>
            if i = documentId then s.collaboratorList i ++ [grantee]
            else s.collaboratorList i }
    .ok { s1 with
          fheAcl := fun h a =>
            if h = doc.encryptedSecret ∧ a = grantee then true else s1.fheAcl h a }

/-- `updateDocumentBody(documentId, encryptedBody)` called by `sender` at
block timestamp `now`.  The authorization check is `FHE.isSenderAllowed`
on the document's secret handle — the external FHE ACL, not the contract's
own `_collaborators` mapping. -/
def updateDocumentBody (documentId : Nat) (encryptedBody : String)
    (sender now : Nat) (s : VaultState) : Except VaultError VaultState :=
  let doc := s.documents documentId
  if doc.owner = 0 then
    .error (.documentNotFound documentId)
  else if ¬ s.fheAcl doc.encryptedSecret sender then
    .error (.unauthorized sender)
  else
    .ok { s with
          documents := fun i =>
            if i = documentId then
              { doc with encryptedBody := encryptedBody, updatedAt := now }
            else s.documents i
          fheAcl := fun h a =>
            if h = doc.encryptedSecret ∧ a = sender then true else s.fheAcl h a }

/-- `getDocument(documentId)`. -/
def getDocument (documentId : Nat) (s : VaultState) : Except VaultError Document :=
  let doc := s.documents documentId
  if doc.owner = 0 then .error (.documentNotFound documentId) else .ok doc

/-- `getDocuments()`: documents `1 .. documentCount` in ascending id order. -/
def getDocuments (s : VaultState) : List Document :=
  (List.range s.documentCount).map fun i => s.documents (i + 1)

/-- `isAuthorized(documentId, user)`: reads the contract's own
`_collaborators` mapping (not the FHE ACL). -/
def isAuthorized (documentId user : Nat) (s : VaultState) : Except VaultError Bool :=
  if (s.documents documentId).owner = 0 then .error (.documentNotFound documentId)
  else .ok (s.collaborators documentId user)

/-- `getCollaborators(documentId)`. -/
def getCollaborators (documentId : Nat) (s : VaultState) :
    Except VaultError (List Nat) :=
  if (s.documents documentId).owner = 0 then .error (.documentNotFound documentId)
  else .ok (s.collaboratorList documentId)

/-- `documentCount()`. -/
def documentCount (s : VaultState) : Nat := s.documentCount

/-- One external transaction against the contract. -/
inductive Action where
  | create (name : String) (sender now : Nat)
  | grant (documentId grantee sender : Nat)
  | update (documentId : Nat) (encryptedBody : String) (sender now : Nat)

/-- The `msg.sender` of a transaction. -/
def Action.sender : Action → Nat
  | .create _ s _ => s
  | .grant _ _ s => s
  | .update _ _ s _ => s

/-- Execute one transaction with EVM revert semantics: a reverting call
leaves storage unchanged. -/
def execAction (a : Action) (s : VaultState) : VaultState :=
  match a with
  | .create name sender now =>
      match createDocument name sender now s with
      | .ok (_, s') => s'
      | .error _ => s
  | .grant documentId grantee sender =>
      match grantAccess documentId grantee sender s with
      | .ok s' => s'
      | .error _ => s
  | .update documentId body sender now =>
      match updateDocumentBody documentId body sender now s with
      | .ok s' => s'
      | .error _ => s

/-- States reachable from deployment by any sequence of `createDocument`,
`grantAccess` and `updateDocumentBody` transactions.  On the EVM
`msg.sender` of an external call is never the zero address, hence the
`a.sender ≠ 0` side condition. -/
inductive Reachable : VaultState → Prop where
  | init : Reachable initialState
  | step (s : VaultState) (a : Action) (h : Reachable s) (hs : a.sender ≠ 0) :
      Reachable (execAction a s)

end EncryptoVault

namespace Codec

/-- Errors of the frontend codec: `malformedPayload` is the thrown
`Error('Encrypted body is malformed')`, `invalidHexLength` the thrown
`Error('Invalid hex string length')`, and `authenticationFailure` the
`OperationError` raised by authenticated decryption on a bad tag. -/
inductive CodecError where
  | malformedPayload
  | invalidHexLength
  | authenticationFailure
deriving DecidableEq

/-- One digit of JavaScript `Number.prototype.toString(16)`: lowercase hex. -/
def hexDigitChar (n : Nat) : Char :=
  if n < 10 then Char.ofNat ('0'.toNat + n) else Char.ofNat ('a'.toNat + (n - 10))

/-- `b.toString(16).padStart(2, '0')` for a byte `b < 256` (`Uint8Array`
elements are always in that range). -/
def toHexByte (b : Nat) : List Char :=
  [hexDigitChar (b / 16), hexDigitChar (b % 16)]

/-- `toHex`: every byte as two lowercase hex digits, concatenated. -/
def toHex (bs : List Nat) : List Char :=
  (bs.map toHexByte).flatten

/-- `String.prototype.split(':')` on the characters of the payload: all
segments between colons, empty segments included. -/
def splitOnColon : List Char → List (List Char)
  | [] => [[]]
  | c :: rest =>
      if c = ':' then [] :: splitOnColon rest
      else
        match splitOnColon rest with
        | [] => [[c]]
        | h :: t => (c :: h) :: t

/-- Hex digits accepted by `parseInt(_, 16)`. -/
def isHexDigit (c : Char) : Bool :=
  decide (('0' ≤ c ∧ c ≤ '9') ∨ ('a' ≤ c ∧ c ≤ 'f') ∨ ('A' ≤ c ∧ c ≤ 'F'))

/-- Numeric value of a hex digit (0 on anything else). -/
def hexVal (c : Char) : Nat :=
  if '0' ≤ c ∧ c ≤ '9' then c.toNat - '0'.toNat
  else if 'a' ≤ c ∧ c ≤ 'f' then c.toNat - 'a'.toNat + 10
  else if 'A' ≤ c ∧ c ≤ 'F' then c.toNat - 'A'.toNat + 10
  else 0

/-- Accumulates the value of a leading run of hex digits. -/
def leadingHexAux : List Char → Nat → Nat
  | [], acc => acc
  | c :: rest, acc =>
      if isHexDigit c then leadingHexAux rest (acc * 16 + hexVal c) else acc

/-- Value of the longest leading run of hex digits; `none` when the run is
empty (the `NaN` case of `parseInt`). -/
def leadingHexNat : List Char → Option Nat
  | [] => none
  | c :: rest =>
      if isHexDigit c then some (leadingHexAux rest (hexVal c)) else none

/-- ASCII whitespace skipped by `parseInt` (sufficient for the one- and
two-character chunks `fromHex` feeds it). -/
def jsSpace (c : Char) : Bool :=
  decide (c = ' ' ∨ c = '\t' ∨ c = '\n' ∨ c = '\r' ∨ c = '\x0b' ∨ c = '\x0c')

/-- JavaScript `parseInt(s, 16)`: skip leading whitespace, optional sign,
optional `0x`/`0X` prefix, then the longest run of hex digits; `none`
models the `NaN` result. -/
def jsParseIntHex (s : List Char) : Option Int :=
  let s1 := s.dropWhile fun c => jsSpace c
  let signAndRest : Bool × List Char :=
    match s1 with
    | '-' :: r => (true, r)
    | '+' :: r => (false, r)
    | _ => (false, s1)
  let s2 :=
    match signAndRest.2 with
    | '0' :: 'x' :: r => r
    | '0' :: 'X' :: r => r
    | _ => signAndRest.2
  match leadingHexNat s2 with
  | none => none
  | some v => some (if signAndRest.1 then -(v : Int) else (v : Int))

/-- ECMAScript `ToUint8`, applied by the `Uint8Array` constructor to each
element: `NaN` becomes `0`, other integers are reduced mod `2 ^ 8`. -/
def toUint8 : Option Int → Nat
  | none => 0
  | some v => (v % 256).toNat

/-- `hex.match(/.{1,2}/g) ?? []`: chunks of two characters, a final odd
character standing alone; `[]` on the empty string. -/
def chunk2 : List Char → List (List Char)
  | [] => []
  | [a] => [[a]]
  | a :: b :: rest => [a, b] :: chunk2 rest

/-- `fromHex`: throws on odd length, then decodes each chunk with
`parseInt(chunk, 16)` coerced into a byte.  Note that no check rejects
non-hex characters: an unparseable chunk yields `NaN`, stored as byte `0`. -/
def fromHex (hex : List Char) : Except CodecError (List Nat) :=
  if hex.length % 2 ≠ 0 then .error .invalidHexLength
  else .ok ((chunk2 hex).map fun p => toUint8 (jsParseIntHex p))

/-- An authenticated symmetric cipher over byte lists (key, iv, message):
the AES-GCM `crypto.subtle.encrypt` / `crypto.subtle.decrypt` calls, kept
abstract because they are platform primitives, not repository code.
`decrypt` returns `none` when authentication fails. -/
structure ByteCipher where
  encrypt : List Nat → List Nat → List Nat → List Nat
  decrypt : List Nat → List Nat → List Nat → Option (List Nat)

/-- `deriveKey`: SHA-256 (the abstract `hash`) of the UTF-8 bytes of the
secret. -/
def deriveKey (hash : List Nat → List Nat) (secret : List Nat) : List Nat :=
  hash secret

/-- `encryptBody(secret, body)` with the freshly drawn 12-byte `iv` made
explicit: serializes as `hex(iv) ++ ":" ++ hex(encrypt(key, iv, body))`.
Strings appear as their UTF-8 byte lists (`TextEncoder`) and the payload as
its character list. -/
def encryptBody (cipher : ByteCipher) (hash : List Nat → List Nat)
    (iv secret body : List Nat) : List Char :=
  toHex iv ++ ':' :: toHex (cipher.encrypt (deriveKey hash secret) iv body)

/-- `decryptBody(secret, payload)`: empty payload decrypts to the empty
body; otherwise destructure the first two segments of `payload.split(':')`,
reject missing/empty segments, hex-decode both, and run authenticated
decryption.  The result is the decrypted byte list (`TextDecoder` is
outside the model). -/
def decryptBody (cipher : ByteCipher) (hash : List Nat → List Nat)
    (secret : List Nat) (payload : List Char) : Except CodecError (List Nat) :=
  if payload = [] then .ok []
  else
    match splitOnColon payload with
    | [] => .error .malformedPayload
    | [_] => .error .malformedPayload
    | ivHex :: dataHex :: _ =>
      if ivHex = [] ∨ dataHex = [] then .error .malformedPayload
      else
        match fromHex ivHex with
        | .error e => .error e
        | .ok ivBytes =>
          match fromHex dataHex with
          | .error e => .error e
          | .ok dataBytes =>
            match cipher.decrypt (deriveKey hash secret) ivBytes dataBytes with
            | none => .error .authenticationFailure
            | some m => .ok m

end Codec

namespace Frontend

/-- The pieces of the `VaultApp` component state that `updateBody` writes. -/
structure UiState where
  decryptedBody : String
  status : Option String
  isUpdating : Bool
deriving DecidableEq

/-- The status string set by `updateBody`'s catch block. -/
def updateFailedStatus : String := "Update failed. Confirm you have ACL to this document."

/-- The status string set by `updateBody` on success. -/
def updateSucceededStatus : String := "Document updated on-chain."

/-- `updateBody` of `VaultApp.tsx` after its guards have passed: `txResult`
is the outcome of the contract's `updateDocumentBody` call.  The
`try`/`catch`/`finally` turns any thrown error into UI state only — the
error is caught, logged, and replaced by the fixed status string
`updateFailedStatus`; nothing is re-thrown to the caller. -/
def updateBody (txResult : Except EncryptoVault.VaultError Unit)
    (bodyDraft : String) (ui : UiState) : UiState :=
  match txResult with
  | .ok _ =>
      { ui with decryptedBody := bodyDraft,
                status := some updateSucceededStatus, isUpdating := false }
  | .error _ =>
      { ui with status := some updateFailedStatus, isUpdating := false }

end Frontend

deriving instance DecidableEq for Except

namespace EncryptoVault

/-- Structural invariant of the contract storage maintained by every
transaction: (1) the document ids in use are exactly `1 .. documentCount`;
(2) storage outside that range is at its default values; (3) for every
existing document the collaborator mapping and list agree, the list has no
duplicates, and the owner heads it. -/
def Inv (s : VaultState) : Prop :=
  (∀ i, (s.documents i).owner ≠ 0 ↔ 1 ≤ i ∧ i ≤ s.documentCount) ∧
  (∀ i, ¬(1 ≤ i ∧ i ≤ s.documentCount) →
      s.documents i = emptyDocument ∧ s.collaboratorList i = [] ∧
      ∀ a, s.collaborators i a = false) ∧
  (∀ i, (s.documents i).owner ≠ 0 →
      s.collaborators i ((s.documents i).owner) = true ∧
      (∀ a, s.collaborators i a = true ↔ a ∈ s.collaboratorList i) ∧
      (s.collaboratorList i).Nodup ∧
      (s.collaboratorList i).head? = some ((s.documents i).owner))

/-- Ledger state after Alice (address 1) creates one document at time 5. -/
def aliceState : VaultState := execAction (.create "doc" 1 5) initialState

/-- `aliceState` after Alice grants access to Bob (address 2). -/
def aliceBobState : VaultState := execAction (.grant 1 2 1) aliceState

/-- `aliceState` with the external FHE ACL additionally authorizing Bob
(address 2) on handle 1 — authority-side drift that the contract's own
storage never saw (the spec's ConfidentialValueStore may be mutated
independently of the ledger). -/
def driftedState : VaultState :=
  { aliceState with
    fheAcl := fun h a => if h = 1 ∧ a = 2 then true else aliceState.fheAcl h a }

end EncryptoVault

namespace Codec

/-- First segment of `payload.split(':')` (always present). -/
def ivSegment (payload : List Char) : List Char := (splitOnColon payload).headD []

/-- Second segment of `payload.split(':')`, `none` when the payload has no
colon (the `undefined` of the JavaScript destructuring). -/
def dataSegment (payload : List Char) : Option (List Char) := (splitOnColon payload)[1]?

/-- A trivial concrete instance of `ByteCipher` (appends one byte of
padding, which `decrypt` strips again), used to instantiate theorems about
the codec wrapper at concrete inputs. -/
def toyCipher : ByteCipher :=
  { encrypt := fun _ _ m => m ++ [0]
    decrypt := fun _ _ c => some c.dropLast }

end Codec

namespace Codec

/-- `splitOnColon` always returns at least one segment, like
`String.prototype.split`. -/
theorem splitOnColon_ne_nil (l : List Char) : splitOnColon l ≠ [] := by
  induction l with
  | nil => simp [splitOnColon]
  | cons c rest ih =>
    simp only [splitOnColon]
    split
    · simp
    · cases h : splitOnColon rest <;> simp

/-- A colon-free string is a single segment. -/
theorem splitOnColon_no_colon (l : List Char) (h : ∀ c ∈ l, c ≠ ':') :
    splitOnColon l = [l] := by
  induction l with
  | nil => rfl
  | cons c rest ih =>
    have hc : c ≠ ':' := h c (by simp)
    have ih' := ih fun x hx => h x (by simp [hx])
    simp [splitOnColon, hc, ih']

/-- Splitting peels off a colon-free head segment. -/
theorem splitOnColon_append (a b : List Char) (ha : ∀ c ∈ a, c ≠ ':') :
    splitOnColon (a ++ ':' :: b) = a :: splitOnColon b := by
  induction a with
  | nil => simp [splitOnColon]
  | cons c rest ih =>
    have hc : c ≠ ':' := ha c (by simp)
    have ih' := ih fun x hx => ha x (by simp [hx])
    simp [splitOnColon, hc, ih']

/-- Hex digit characters are never a colon. -/
theorem hexDigitChar_ne_colon (n : Nat) (h : n < 16) : hexDigitChar n ≠ ':' := by
  revert n
  decide

/-- No character of the hex rendering of a byte list is a colon. -/
theorem toHex_ne_colon (bs : List Nat) (hb : ∀ x ∈ bs, x < 256) :
    ∀ c ∈ toHex bs, c ≠ ':' := by
  intro c hc
  simp only [toHex, List.mem_flatten, List.mem_map] at hc
  obtain ⟨l, ⟨b, hbmem, rfl⟩, hcl⟩ := hc
  have hb' : b < 256 := hb b hbmem
  simp only [toHexByte, List.mem_cons, List.not_mem_nil, or_false] at hcl
  rcases hcl with rfl | rfl
  · exact hexDigitChar_ne_colon _ (by omega)
  · exact hexDigitChar_ne_colon _ (by omega)

/-- The hex rendering of a byte list has twice its length. -/
theorem toHex_length (bs : List Nat) : (toHex bs).length = 2 * bs.length := by
  induction bs with
  | nil => rfl
  | cons b rest ih =>
    have h : toHex (b :: rest) = toHexByte b ++ toHex rest := by simp [toHex]
    rw [h, List.length_append, ih]
    simp [toHexByte]
    omega

/-- Unfolding equation of `chunk2` on two explicit leading characters. -/
theorem chunk2_cons_cons (x y : Char) (l : List Char) :
    chunk2 (x :: y :: l) = [x, y] :: chunk2 l := rfl

/-- Chunking a hex rendering recovers the per-byte digit pairs. -/
theorem chunk2_toHex (bs : List Nat) : chunk2 (toHex bs) = bs.map toHexByte := by
  induction bs with
  | nil => rfl
  | cons b rest ih =>
    have h : toHex (b :: rest) = toHexByte b ++ toHex rest := by simp [toHex]
    rw [h]
    simp only [toHexByte, List.cons_append, List.nil_append]
    rw [chunk2_cons_cons, ih]
    simp [toHexByte]

set_option maxRecDepth 10000 in
/-- `parseInt(_, 16)` followed by the `Uint8Array` coercion inverts the
two-digit rendering of a byte. -/
theorem byte_roundtrip : ∀ b, b < 256 → toUint8 (jsParseIntHex (toHexByte b)) = b := by
  decide

/-- `fromHex` inverts `toHex` on byte lists. -/
theorem fromHex_toHex (bs : List Nat) (hb : ∀ x ∈ bs, x < 256) :
    fromHex (toHex bs) = .ok bs := by
  rw [fromHex, if_neg (by rw [toHex_length]; omega)]
  have h : (chunk2 (toHex bs)).map (fun p => toUint8 (jsParseIntHex p)) = bs := by
    rw [chunk2_toHex, List.map_map]
    show List.map (fun a => toUint8 (jsParseIntHex (toHexByte a))) bs = bs
    have h2 : ∀ x ∈ bs, toUint8 (jsParseIntHex (toHexByte x)) = id x :=
      fun x hx => byte_roundtrip x (hb x hx)
    rw [List.map_congr_left h2, List.map_id]
  rw [h]

/-- C2: for every secret `s` and body `b`, `decrypt(s, encrypt(s, b))`
returns `b` — the symmetric codec round-trips any plaintext under the same
secret, for any fresh 12-byte nonce drawn during encryption.  The AES-GCM
primitive and SHA-256 are platform calls, abstracted as `cipher` and
`hash`; their standard properties (a GCM decryption inverts encryption
under the same key and nonce, ciphertext-plus-tag is a nonempty byte list)
are the stated hypotheses.  Secrets, bodies and keys appear as their UTF-8
byte lists. -/
theorem encryptBody_decryptBody_roundtrip
    (cipher : ByteCipher) (hash : List Nat → List Nat) (iv secret body : List Nat)
    (hivlen : iv.length = 12)
    (hivb : ∀ x ∈ iv, x < 256)
    (hctb : ∀ x ∈ cipher.encrypt (deriveKey hash secret) iv body, x < 256)
    (hctne : cipher.encrypt (deriveKey hash secret) iv body ≠ [])
    (hdec : cipher.decrypt (deriveKey hash secret) iv
              (cipher.encrypt (deriveKey hash secret) iv body) = some body) :
    decryptBody cipher hash secret (encryptBody cipher hash iv secret body) =
      .ok body := by
  set ct := cipher.encrypt (deriveKey hash secret) iv body with hct
  have hivne : toHex iv ≠ [] := by
    intro h
    have hl := toHex_length iv
    rw [h, hivlen] at hl
    simp at hl
  have hdatane : toHex ct ≠ [] := by
    intro h
    have hl := toHex_length ct
    rw [h] at hl
    simp only [List.length_nil] at hl
    have : ct.length = 0 := by omega
    exact hctne (List.eq_nil_of_length_eq_zero this)
  have hpayne : toHex iv ++ ':' :: toHex ct ≠ [] := by simp
  have hsplit : splitOnColon (toHex iv ++ ':' :: toHex ct) = [toHex iv, toHex ct] := by
    rw [splitOnColon_append _ _ (toHex_ne_colon iv hivb),
        splitOnColon_no_colon _ (toHex_ne_colon ct hctb)]
  rw [encryptBody, ← hct]
  simp only [decryptBody]
  rw [if_neg hpayne, hsplit]
  simp [hivne, hdatane, fromHex_toHex iv hivb, fromHex_toHex ct hctb, hdec]

/-- C2 witness: the round-trip theorem applied to an explicit cipher, a
concrete secret, body and nonce. -/
theorem encryptBody_decryptBody_roundtrip_witness :
    decryptBody toyCipher (fun k => k) [49]
        (encryptBody toyCipher (fun k => k) [0, 1, 2, 3, 4, 5, 6, 7, 8, 9, 10, 11]
          [49] [104, 105]) =
      .ok [104, 105] :=
  encryptBody_decryptBody_roundtrip toyCipher (fun k => k)
    [0, 1, 2, 3, 4, 5, 6, 7, 8, 9, 10, 11] [49] [104, 105]
    (by decide) (by decide) (by decide) (by decide) (by decide)

/-- C3 counterexample: `decryptBody` does not reject non-hex characters.
On the payload `"zz:zz"` both halves consist of non-hex characters, yet
decryption succeeds (each unparseable pair decodes to byte 0) instead of
failing with an invalid-encoding error.  Moreover the payload `"a::b"`,
whose split on the FIRST colon would give the two nonempty halves `"a"`
and `":b"`, is rejected as malformed (the code splits on every colon and
finds an empty second segment), not with an encoding error as the claim's
reading implies. -/
theorem decryptBody_nonhex_counterexample :
    decryptBody toyCipher (fun k => k) [49] ['z', 'z', ':', 'z', 'z'] = .ok [] ∧
    isHexDigit 'z' = false ∧
    decryptBody toyCipher (fun k => k) [49] ['a', ':', ':', 'b'] =
      .error .malformedPayload := by
  decide

/-- C3 (amended): for every secret, `decrypt(s, "")` returns `""` without
error.  A non-empty payload is split on every `':'` and the first two
segments are taken; the result is a MalformedPayload error exactly when
there is no second segment or the first or second segment is empty, and an
InvalidEncoding (invalid hex length) error exactly when the segments are
present and nonempty and the first has odd length, or the first has even
length and the second has odd length.  No other condition — in particular
not the presence of non-hex characters — produces a decoding error. -/
theorem decryptBody_error_spec (cipher : ByteCipher) (hash : List Nat → List Nat)
    (secret : List Nat) (payload : List Char) :
    (payload = [] → decryptBody cipher hash secret payload = .ok []) ∧
    (decryptBody cipher hash secret payload = .error .malformedPayload ↔
      payload ≠ [] ∧
        (dataSegment payload = none ∨ ivSegment payload = [] ∨
          dataSegment payload = some [])) ∧
    (decryptBody cipher hash secret payload = .error .invalidHexLength ↔
      payload ≠ [] ∧ ivSegment payload ≠ [] ∧
        (∃ d, dataSegment payload = some d ∧ d ≠ []) ∧
        ((ivSegment payload).length % 2 = 1 ∨
          ((ivSegment payload).length % 2 = 0 ∧
            ∃ d, dataSegment payload = some d ∧ d.length % 2 = 1))) := by
  by_cases hp : payload = []
  · subst hp
    exact ⟨fun _ => rfl, by simp [decryptBody], by simp [decryptBody]⟩
  · rcases hsp : splitOnColon payload with _ | ⟨ivH, tl⟩
    · exact absurd hsp (splitOnColon_ne_nil payload)
    rcases tl with _ | ⟨dataH, rest⟩
    · have hiv : ivSegment payload = ivH := by simp [ivSegment, hsp]
      have hdata : dataSegment payload = none := by simp [dataSegment, hsp]
      have hD : decryptBody cipher hash secret payload = .error .malformedPayload := by
        simp only [decryptBody, hsp]
        rw [if_neg hp]
      refine ⟨fun h => absurd h hp, ?_, ?_⟩
      · rw [hD]; simp [hiv, hdata, hp]
      · rw [hD]; simp [hiv, hdata, hp]
    · have hiv : ivSegment payload = ivH := by simp [ivSegment, hsp]
      have hdata : dataSegment payload = some dataH := by simp [dataSegment, hsp]
      by_cases hive : ivH = [] ∨ dataH = []
      · have hD : decryptBody cipher hash secret payload = .error .malformedPayload := by
          simp only [decryptBody, hsp]
          rw [if_neg hp]
          simp [hive]
        refine ⟨fun h => absurd h hp, ?_, ?_⟩
        · rw [hD]
          simp only [hiv, hdata, hp, true_iff, ne_eq, not_false_iff, true_and]
          rcases hive with h | h
          · exact Or.inr (Or.inl h)
          · subst h; simp
        · rw [hD]
          constructor
          · intro h; exact absurd h (by simp)
          · rintro ⟨-, hivne, ⟨d, hd, hdne⟩, -⟩
            rw [hdata] at hd
            injection hd with hd'
            rcases hive with h | h
            · rw [hiv] at hivne; exact absurd h hivne
            · exact absurd (hd'.symm.trans h) hdne
      · push_neg at hive
        obtain ⟨hivne, hdne⟩ := hive
        by_cases hoiv : ivH.length % 2 = 0
        · have hfiv : fromHex ivH =
              .ok ((chunk2 ivH).map fun p => toUint8 (jsParseIntHex p)) := by
            simp [fromHex, hoiv]
          by_cases hod : dataH.length % 2 = 0
          · have hfd : fromHex dataH =
                .ok ((chunk2 dataH).map fun p => toUint8 (jsParseIntHex p)) := by
              simp [fromHex, hod]
            have hD : ∀ e : CodecError,
                e ≠ .authenticationFailure →
                decryptBody cipher hash secret payload ≠ .error e := by
              intro e he
              simp only [decryptBody, hsp]
              rw [if_neg hp]
              simp only [hivne, hdne, or_self, if_neg, hfiv, hfd]
              rcases cipher.decrypt (deriveKey hash secret)
                  ((chunk2 ivH).map fun p => toUint8 (jsParseIntHex p))
                  ((chunk2 dataH).map fun p => toUint8 (jsParseIntHex p)) with _ | m
              · simp [Ne.symm he]
              · simp
            refine ⟨fun h => absurd h hp, ?_, ?_⟩
            · simp only [hD .malformedPayload (by simp), false_iff]
              rintro ⟨-, h | h | h⟩
              · rw [hdata] at h; exact Option.noConfusion h
              · rw [hiv] at h; exact hivne h
              · rw [hdata] at h; injection h with h'; exact hdne h'
            · simp only [hD .invalidHexLength (by simp), false_iff]
              rintro ⟨-, -, -, h | h⟩
              · rw [hiv] at h; omega
              · obtain ⟨-, d, hd, hdo⟩ := h
                rw [hdata] at hd; injection hd with hd'; subst hd'; omega
          · have hfd : fromHex dataH = .error .invalidHexLength := by
              simp [fromHex, hod]
            have hD : decryptBody cipher hash secret payload = .error .invalidHexLength := by
              simp only [decryptBody, hsp]
              rw [if_neg hp]
              simp [hivne, hdne, hfiv, hfd]
            refine ⟨fun h => absurd h hp, ?_, ?_⟩
            · rw [hD]
              constructor
              · intro h; exact absurd h (by simp)
              · rintro ⟨-, h | h | h⟩
                · rw [hdata] at h; exact Option.noConfusion h
                · rw [hiv] at h; exact absurd h hivne
                · rw [hdata] at h; injection h with h'; exact absurd h' hdne
            · rw [hD]
              simp only [true_iff]
              refine ⟨hp, by rw [hiv]; exact hivne, ⟨dataH, hdata, hdne⟩, ?_⟩
              right
              exact ⟨by rw [hiv]; omega, dataH, hdata, by omega⟩
        · have hfiv : fromHex ivH = .error .invalidHexLength := by
            simp [fromHex, hoiv]
          have hD : decryptBody cipher hash secret payload = .error .invalidHexLength := by
            simp only [decryptBody, hsp]
            rw [if_neg hp]
            simp [hivne, hdne, hfiv]
          refine ⟨fun h => absurd h hp, ?_, ?_⟩
          · rw [hD]
            constructor
            · intro h; exact absurd h (by simp)
            · rintro ⟨-, h | h | h⟩
              · rw [hdata] at h; exact Option.noConfusion h
              · rw [hiv] at h; exact absurd h hivne
              · rw [hdata] at h; injection h with h'; exact absurd h' hdne
          · rw [hD]
            simp only [true_iff]
            exact ⟨hp, by rw [hiv]; exact hivne, ⟨dataH, hdata, hdne⟩,
              Or.inl (by rw [hiv]; omega)⟩

/-- C3 witness: the amended characterization applied at the concrete
payload `"ab:c"`, whose second segment has odd length. -/
theorem decryptBody_error_spec_witness :
    decryptBody toyCipher (fun k => k) [49] ['a', 'b', ':', 'c'] =
      .error .invalidHexLength :=
  (decryptBody_error_spec toyCipher (fun k => k) [49] ['a', 'b', ':', 'c']).2.2.mpr
    ⟨by decide, by decide, ⟨['c'], by decide, by decide⟩,
      Or.inr ⟨by decide, ['c'], by decide, by decide⟩⟩

end Codec

namespace EncryptoVault

/-- The invariant holds at deployment. -/
theorem inv_initial : Inv initialState := by
  refine ⟨?_, ?_, ?_⟩
  · intro i
    simp [initialState, emptyDocument]
    omega
  · intro i _
    simp [initialState]
  · intro i h
    simp [initialState, emptyDocument] at h

/-- A successful `createDocument` by a nonzero sender preserves the
invariant. -/
theorem inv_createDocument (s : VaultState) (name : String) (sender now id : Nat)
    (s' : VaultState) (hinv : Inv s) (hsender : sender ≠ 0)
    (h : createDocument name sender now s = .ok (id, s')) : Inv s' := by
  obtain ⟨h1, h2, h3⟩ := hinv
  simp only [createDocument] at h
  split_ifs at h
  injection h with h
  injection h with hid h
  subst h
  set n := s.documentCount with hcount
  refine ⟨?_, ?_, ?_⟩
  · intro i
    by_cases hi : i = n + 1
    · subst hi
      simp [hsender]
    · simp only
      rw [if_neg hi, h1 i]
      omega
  · intro i hi
    simp only at hi
    have hne : i ≠ n + 1 := by omega
    have hi' : ¬(1 ≤ i ∧ i ≤ n) := by omega
    obtain ⟨e1, e2, e3⟩ := h2 i hi'
    refine ⟨?_, ?_, ?_⟩
    · simp only; rw [if_neg hne]; exact e1
    · simp only; rw [if_neg hne]; exact e2
    · intro a
      simp only
      rw [if_neg (by simp [hne])]
      exact e3 a
  · intro i hown
    by_cases hi : i = n + 1
    · subst hi
      obtain ⟨e1, e2, e3⟩ := h2 (n + 1) (by omega)
      refine ⟨?_, ?_, ?_, ?_⟩
      · simp
      · intro a
        by_cases ha : a = sender
        · subst ha; simp [e2]
        · simp [ha, e3 a, e2]
      · simp [e2]
      · simp [e2]
    · simp only at hown ⊢
      rw [if_neg hi] at hown
      obtain ⟨g1, g2, g3, g4⟩ := h3 i hown
      rw [if_neg hi]
      refine ⟨?_, ?_, ?_, ?_⟩
      · rw [if_neg (by simp [hi])]; exact g1
      · intro a
        rw [if_neg (by simp [hi]), if_neg hi]
        exact g2 a
      · rw [if_neg hi]; exact g3
      · rw [if_neg hi]; exact g4

/-- A successful `grantAccess` preserves the invariant. -/
theorem inv_grantAccess (s : VaultState) (documentId grantee sender : Nat)
    (s' : VaultState) (hinv : Inv s)
    (h : grantAccess documentId grantee sender s = .ok s') : Inv s' := by
  obtain ⟨h1, h2, h3⟩ := hinv
  simp only [grantAccess] at h
  split_ifs at h with hd ho hz hc
  · injection h with h
    subst h
    exact ⟨h1, h2, h3⟩
  · injection h with h
    subst h
    have hrange : 1 ≤ documentId ∧ documentId ≤ s.documentCount := (h1 documentId).mp hd
    obtain ⟨g1, g2, g3, g4⟩ := h3 documentId hd
    have hnotmem : grantee ∉ s.collaboratorList documentId := by
      intro hm
      rw [← g2 grantee] at hm
      simp [hm] at hc
    refine ⟨h1, ?_, ?_⟩
    · intro i hi
      simp only at hi
      have hne : i ≠ documentId := by omega
      obtain ⟨e1, e2, e3⟩ := h2 i hi
      refine ⟨e1, ?_, ?_⟩
      · simp only; rw [if_neg hne]; exact e2
      · intro a
        simp only
        rw [if_neg (by simp [hne])]
        exact e3 a
    · intro i hown
      simp only at hown ⊢
      by_cases hi : i = documentId
      · subst hi
        refine ⟨?_, ?_, ?_, ?_⟩
        · by_cases hb : (s.documents i).owner = grantee
          · rw [if_pos (by simp [hb])]
          · rw [if_neg (by simp [hb])]; exact g1
        · intro a
          rw [if_pos rfl]
          by_cases ha : a = grantee
          · subst ha; simp
          · rw [if_neg (by simp [ha])]
            simp [ha, g2 a]
        · rw [if_pos rfl, List.nodup_append]
          refine ⟨g3, List.nodup_singleton grantee, ?_⟩
          simp only [List.disjoint_singleton]
          exact hnotmem
        · rw [if_pos rfl]
          rcases hl : s.collaboratorList i with _ | ⟨x, xs⟩
          · rw [hl] at g4; simp at g4
          · rw [hl] at g4
            simpa using g4
      · obtain ⟨g1', g2', g3', g4'⟩ := h3 i hown
        rw [if_neg hi]
        refine ⟨?_, ?_, ?_, ?_⟩
        · rw [if_neg (by simp [hi])]; exact g1'
        · intro a
          rw [if_neg (by simp [hi])]
          exact g2' a
        · exact g3'
        · exact g4'

/-- A successful `updateDocumentBody` preserves the invariant. -/
theorem inv_updateDocumentBody (s : VaultState) (documentId : Nat) (body : String)
    (sender now : Nat) (s' : VaultState) (hinv : Inv s)
    (h : updateDocumentBody documentId body sender now s = .ok s') : Inv s' := by
  obtain ⟨h1, h2, h3⟩ := hinv
  simp only [updateDocumentBody] at h
  split_ifs at h with hd hacl
  injection h with h
  subst h
  have hd' : (s.documents documentId).owner ≠ 0 := hd
  have hrange : 1 ≤ documentId ∧ documentId ≤ s.documentCount := (h1 documentId).mp hd'
  refine ⟨?_, ?_, ?_⟩
  · intro i
    by_cases hi : i = documentId
    · subst hi
      simp only [if_pos rfl]
      exact h1 i
    · simp only; rw [if_neg hi]; exact h1 i
  · intro i hi
    simp only at hi
    have hne : i ≠ documentId := by omega
    obtain ⟨e1, e2, e3⟩ := h2 i hi
    refine ⟨?_, e2, e3⟩
    simp only; rw [if_neg hne]; exact e1
  · intro i hown
    simp only at hown ⊢
    by_cases hi : i = documentId
    · subst hi
      rw [if_pos rfl] at hown ⊢
      obtain ⟨g1, g2, g3, g4⟩ := h3 i (by simpa using hown)
      exact ⟨by simpa using g1, g2, g3, by simpa using g4⟩
    · rw [if_neg hi] at hown ⊢
      exact h3 i hown

/-- Every transaction (committed or reverted) preserves the invariant. -/
theorem inv_preserved (s : VaultState) (a : Action) (hinv : Inv s)
    (hs : a.sender ≠ 0) : Inv (execAction a s) := by
  cases a with
  | create name sender now =>
    simp only [Action.sender] at hs
    rcases hc : createDocument name sender now s with e | ⟨id, s'⟩
    · simpa [execAction, hc] using hinv
    · simp only [execAction, hc]
      exact inv_createDocument s name sender now id s' hinv hs hc
  | grant documentId grantee sender =>
    rcases hc : grantAccess documentId grantee sender s with e | s'
    · simpa [execAction, hc] using hinv
    · simp only [execAction, hc]
      exact inv_grantAccess s documentId grantee sender s' hinv hc
  | update documentId body sender now =>
    rcases hc : updateDocumentBody documentId body sender now s with e | s'
    · simpa [execAction, hc] using hinv
    · simp only [execAction, hc]
      exact inv_updateDocumentBody s documentId body sender now s' hinv hc

/-- Every reachable ledger state satisfies the invariant. -/
theorem reachable_inv (s : VaultState) (h : Reachable s) : Inv s := by
  induction h with
  | init => exact inv_initial
  | step s a h hs ih => exact inv_preserved s a ih hs

/-- C1: `updateDocumentBody(id, ciphertext, requester)` fails with
Unauthorized exactly when the requester is not currently authorized on the
document's confidential handle in the external FHE ACL — the check is
delegated to the ConfidentialValueStore, not the ledger's own collaborator
set (third conjunct: the outcome is unchanged under arbitrary replacement
of the collaborator mapping and list).  When the requester is authorized,
the call succeeds, replaces `encryptedBody` with the new ciphertext
verbatim, updates `updatedAt` to the block timestamp, and re-asserts the
requester's authorization. -/
theorem updateDocumentBody_delegated_auth
    (s : VaultState) (documentId : Nat) (body : String) (sender now : Nat)
    (hdoc : (s.documents documentId).owner ≠ 0) :
    (s.fheAcl (s.documents documentId).encryptedSecret sender = false →
      updateDocumentBody documentId body sender now s =
        .error (.unauthorized sender)) ∧
    (s.fheAcl (s.documents documentId).encryptedSecret sender = true →
      ∃ s', updateDocumentBody documentId body sender now s = .ok s' ∧
        (s'.documents documentId).encryptedBody = body ∧
        (s'.documents documentId).updatedAt = now ∧
        s'.fheAcl (s'.documents documentId).encryptedSecret sender = true) ∧
    (∀ (c : Nat → Nat → Bool) (l : Nat → List Nat),
      (updateDocumentBody documentId body sender now
          { s with collaborators := c, collaboratorList := l }).isOk =
        (updateDocumentBody documentId body sender now s).isOk) := by
  refine ⟨?_, ?_, ?_⟩
  · intro hacl
    simp [updateDocumentBody, hdoc, hacl]
  · intro hacl
    have hu : updateDocumentBody documentId body sender now s =
        .ok { s with
              documents := fun i =>
                if i = documentId then
                  { s.documents documentId with encryptedBody := body, updatedAt := now }
                else s.documents i
              fheAcl := fun h a =>
                if h = (s.documents documentId).encryptedSecret ∧ a = sender then true
                else s.fheAcl h a } := by
      simp [updateDocumentBody, hdoc, hacl]
    exact ⟨_, hu, by simp, by simp, by simp⟩
  · intro c l
    by_cases hacl : s.fheAcl (s.documents documentId).encryptedSecret sender
    · simp [updateDocumentBody, hdoc, hacl, Except.isOk, Except.toBool]
    · simp [updateDocumentBody, hdoc, hacl, Except.isOk, Except.toBool]

/-- C1 witness: Bob (address 2) was never authorized on Alice's document,
so his write is rejected with `Unauthorized`. -/
theorem updateDocumentBody_delegated_auth_witness :
    updateDocumentBody 1 "ct" 2 9 aliceState = .error (.unauthorized 2) :=
  (updateDocumentBody_delegated_auth aliceState 1 "ct" 2 9 (by decide)).1 (by decide)

/-- C4: in every reachable ledger state the set of existing document ids is
exactly `{1, ..., documentCount}` (dense, starting at 1, no gaps and no
reuse), and every successful `createDocument` returns
`documentCount + 1` and increments the count. -/
theorem document_ids_dense :
    (∀ s, Reachable s → ∀ i,
      ((s.documents i).owner ≠ 0 ↔ 1 ≤ i ∧ i ≤ s.documentCount)) ∧
    (∀ (name : String) (sender now : Nat) (s : VaultState) (id : Nat) (s' : VaultState),
      createDocument name sender now s = .ok (id, s') →
      id = s.documentCount + 1 ∧ s'.documentCount = s.documentCount + 1) := by
  constructor
  · intro s hr i
    exact (reachable_inv s hr).1 i
  · intro name sender now s id s' h
    simp only [createDocument] at h
    split_ifs at h
    injection h with h
    injection h with hid h
    exact ⟨hid.symm, by rw [← h]⟩

/-- C4 witness: after one creation, document 1 exists and the count is 1. -/
theorem document_ids_dense_witness :
    (aliceState.documents 1).owner ≠ 0 ∧ aliceState.documentCount = 1 :=
  ⟨(document_ids_dense.1 aliceState
      (Reachable.step initialState (.create "doc" 1 5) Reachable.init (by decide)) 1).mpr
      (by decide),
    by decide⟩

/-- C5: in every reachable state, for every existing document, the owner is
a member of both the collaborator set and the collaborator list, the list
contains exactly the identities of the set without duplicates, the owner
heads the list, and (second conjunct) a successful grant either leaves the
list unchanged or appends the grantee at the end — so the list stays in
first-authorization order. -/
theorem collaborator_list_exact :
    (∀ s, Reachable s → ∀ i, (s.documents i).owner ≠ 0 →
      s.collaborators i ((s.documents i).owner) = true ∧
      (s.documents i).owner ∈ s.collaboratorList i ∧
      (∀ a, s.collaborators i a = true ↔ a ∈ s.collaboratorList i) ∧
      (s.collaboratorList i).Nodup ∧
      (s.collaboratorList i).head? = some ((s.documents i).owner)) ∧
    (∀ (s : VaultState) (documentId grantee sender : Nat) (s' : VaultState),
      grantAccess documentId grantee sender s = .ok s' →
      s'.collaboratorList documentId = s.collaboratorList documentId ∨
      s'.collaboratorList documentId = s.collaboratorList documentId ++ [grantee]) := by
  constructor
  · intro s hr i hown
    obtain ⟨h1, h2, h3⟩ := reachable_inv s hr
    obtain ⟨g1, g2, g3, g4⟩ := h3 i hown
    exact ⟨g1, (g2 _).mp g1, g2, g3, g4⟩
  · intro s documentId grantee sender s' h
    simp only [grantAccess] at h
    split_ifs at h with hd ho hz hc
    · injection h with h
      subst h
      left
      rfl
    · injection h with h
      subst h
      right
      simp

/-- C5 witness: after Alice creates a document and grants Bob access, the
owner is in the collaborator set and the list has no duplicates. -/
theorem collaborator_list_exact_witness :
    aliceBobState.collaborators 1 ((aliceBobState.documents 1).owner) = true ∧
    (aliceBobState.collaboratorList 1).Nodup :=
  have hr : Reachable aliceBobState :=
    Reachable.step aliceState (.grant 1 2 1)
      (Reachable.step initialState (.create "doc" 1 5) Reachable.init (by decide))
      (by decide)
  ⟨(collaborator_list_exact.1 aliceBobState hr 1 (by decide)).1,
    (collaborator_list_exact.1 aliceBobState hr 1 (by decide)).2.2.2.1⟩

/-- C6: `grantAccess(id, grantee, requester)` fails with NotOwner for every
requester who is not the document's owner — the statement quantifies over
all requesters, so in particular over authorized collaborators: granting is
not delegable. -/
theorem grantAccess_requires_owner (s : VaultState) (documentId grantee sender : Nat)
    (hdoc : (s.documents documentId).owner ≠ 0)
    (hno : (s.documents documentId).owner ≠ sender) :
    grantAccess documentId grantee sender s = .error (.notDocumentOwner sender) := by
  simp [grantAccess, hdoc, hno]

/-- C6 witness: Bob (address 2) is an authorized collaborator of document 1
but not its owner, and his grant attempt fails with NotOwner. -/
theorem grantAccess_requires_owner_witness :
    grantAccess 1 3 2 aliceBobState = .error (.notDocumentOwner 2) ∧
    aliceBobState.collaborators 1 2 = true :=
  ⟨grantAccess_requires_owner aliceBobState 1 3 2 (by decide) (by decide), by decide⟩

/-- C7: granting to an identity already in the collaborator set succeeds,
leaves the collaborator list (hence `getCollaborators`) and the
collaborator mapping completely unchanged — no duplicate entry is
appended — and still re-asserts the confidential-value authorization of
the grantee in the FHE ACL. -/
theorem grantAccess_idempotent (s : VaultState) (documentId grantee sender : Nat)
    (hdoc : (s.documents documentId).owner ≠ 0)
    (hown : (s.documents documentId).owner = sender)
    (hg : grantee ≠ 0)
    (hc : s.collaborators documentId grantee = true) :
    ∃ s', grantAccess documentId grantee sender s = .ok s' ∧
      s'.collaboratorList = s.collaboratorList ∧
      s'.collaborators = s.collaborators ∧
      getCollaborators documentId s' = getCollaborators documentId s ∧
      s'.fheAcl (s.documents documentId).encryptedSecret grantee = true := by
  have hu : grantAccess documentId grantee sender s =
      .ok { s with
            fheAcl := fun h a =>
              if h = (s.documents documentId).encryptedSecret ∧ a = grantee then true
              else s.fheAcl h a } := by
    simp only [grantAccess]
    rw [if_neg hdoc, if_neg (by simp [hown]), if_neg hg, if_pos hc]
  exact ⟨_, hu, rfl, rfl, rfl, by simp⟩

/-- C7 witness: Alice repeating the grant to Bob succeeds and changes
neither the collaborator list nor the mapping. -/
theorem grantAccess_idempotent_witness :
    ∃ s', grantAccess 1 2 1 aliceBobState = .ok s' ∧
      s'.collaboratorList = aliceBobState.collaboratorList ∧
      s'.collaborators = aliceBobState.collaborators ∧
      getCollaborators 1 s' = getCollaborators 1 aliceBobState ∧
      s'.fheAcl (aliceBobState.documents 1).encryptedSecret 2 = true :=
  grantAccess_idempotent aliceBobState 1 2 1 (by decide) (by decide) (by decide) (by decide)

/-- C8: `createDocument` fails with EmptyName if and only if the name is
the empty string; for every non-empty name it succeeds and stores a fresh
document at id `documentCount + 1` — a slot that in any reachable state
was previously unoccupied, so every call creates a new document even for a
duplicate name. -/
theorem createDocument_empty_name_iff (name : String) (sender now : Nat) (s : VaultState) :
    (createDocument name sender now s = .error .emptyName ↔ name = "") ∧
    (name ≠ "" →
      ∃ s', createDocument name sender now s = .ok (s.documentCount + 1, s') ∧
        s'.documentCount = s.documentCount + 1 ∧
        s'.documents (s.documentCount + 1) =
          { name := name, encryptedBody := "", encryptedSecret := s.nextHandle,
            owner := sender, updatedAt := now }) ∧
    (Reachable s → (s.documents (s.documentCount + 1)).owner = 0) := by
  refine ⟨?_, ?_, ?_⟩
  · constructor
    · intro h
      by_cases hn : name = ""
      · exact hn
      · simp [createDocument, hn] at h
    · intro hn
      simp [createDocument, hn]
  · intro hn
    simp only [createDocument]
    rw [if_neg hn]
    exact ⟨_, rfl, rfl, by simp⟩
  · intro hr
    obtain ⟨h1, h2, h3⟩ := reachable_inv s hr
    rw [(h2 (s.documentCount + 1) (by omega)).1]
    rfl

/-- C8 witness: creating with an empty name on the fresh ledger fails with
EmptyName. -/
theorem createDocument_empty_name_iff_witness :
    createDocument "" 1 0 initialState = .error .emptyName :=
  (createDocument_empty_name_iff "" 1 0 initialState).1.mpr rfl

/-- C10: a successful `updateDocumentBody` changes neither `isAuthorized`
nor `getCollaborators` for any document or identity; in particular a
requester authorized only in the external FHE ACL (and absent from the
ledger's collaborator set) can commit a body while `isAuthorized` still
returns `false` for them. -/
theorem updateDocumentBody_acl_frame :
    (∀ (s : VaultState) (documentId : Nat) (body : String) (sender now : Nat)
        (s' : VaultState),
      updateDocumentBody documentId body sender now s = .ok s' →
      (∀ i a, isAuthorized i a s' = isAuthorized i a s) ∧
      (∀ i, getCollaborators i s' = getCollaborators i s)) ∧
    (∀ (s : VaultState) (documentId : Nat) (body : String) (sender now : Nat),
      (s.documents documentId).owner ≠ 0 →
      s.fheAcl (s.documents documentId).encryptedSecret sender = true →
      s.collaborators documentId sender = false →
      ∃ s', updateDocumentBody documentId body sender now s = .ok s' ∧
        isAuthorized documentId sender s' = .ok false) := by
  constructor
  · intro s documentId body sender now s' h
    simp only [updateDocumentBody] at h
    split_ifs at h with hd hacl
    injection h with h
    subst h
    constructor
    · intro i a
      simp only [isAuthorized]
      by_cases hi : i = documentId
      · subst hi
        simp
      · simp [hi]
    · intro i
      simp only [getCollaborators]
      by_cases hi : i = documentId
      · subst hi
        simp
      · simp [hi]
  · intro s documentId body sender now hdoc hacl hc
    have hu : updateDocumentBody documentId body sender now s =
        .ok { s with
              documents := fun i =>
                if i = documentId then
                  { s.documents documentId with encryptedBody := body, updatedAt := now }
                else s.documents i
              fheAcl := fun h a =>
                if h = (s.documents documentId).encryptedSecret ∧ a = sender then true
                else s.fheAcl h a } := by
      simp [updateDocumentBody, hdoc, hacl]
    refine ⟨_, hu, ?_⟩
    simp [isAuthorized, hdoc, hc]

/-- C10 witness: in the drifted state Bob is authorized only in the
external FHE ACL; his write commits while `isAuthorized` stays `false`. -/
theorem updateDocumentBody_acl_frame_witness :
    ∃ s', updateDocumentBody 1 "ct" 2 9 driftedState = .ok s' ∧
      isAuthorized 1 2 s' = .ok false :=
  updateDocumentBody_acl_frame.2 driftedState 1 "ct" 2 9 (by decide) (by decide) (by decide)

end EncryptoVault

namespace Frontend

/-- C9 counterexample: when the contract call fails with Unauthorized, the
frontend's `updateBody` does not surface that error to its caller — its
entire observable result is the UI state, which is identical to the one
produced by a completely different error kind (DocumentNotFound) and
carries only the fixed generic status string.  The original error kind is
replaced, contradicting the claim that it propagates unchanged. -/
theorem updateBody_swallows_unauthorized :
    updateBody (.error (.unauthorized 2)) "draft"
        { decryptedBody := "old", status := none, isUpdating := true } =
      updateBody (.error (.documentNotFound 1)) "draft"
        { decryptedBody := "old", status := none, isUpdating := true } ∧
    (updateBody (.error (.unauthorized 2)) "draft"
        { decryptedBody := "old", status := none, isUpdating := true }).status =
      some updateFailedStatus ∧
    updateFailedStatus = "Update failed. Confirm you have ACL to this document." :=
  ⟨rfl, rfl, rfl⟩

/-- C9 (amended): when the ledger rejects a write, `updateBody` catches the
error and reports only the fixed status string `updateFailedStatus`,
leaving the decrypted body unchanged; the resulting UI state is the same
for every ledger error kind, so the original kind (Unauthorized included)
is swallowed rather than surfaced. -/
theorem updateBody_generic_failure_status (e e' : EncryptoVault.VaultError)
    (bodyDraft : String) (ui : UiState) :
    updateBody (.error e) bodyDraft ui =
      { ui with status := some updateFailedStatus, isUpdating := false } ∧
    updateBody (.error e) bodyDraft ui = updateBody (.error e') bodyDraft ui :=
  ⟨rfl, rfl⟩

end Frontend
